import Mathlib

/-!
# Verification of `metautils.intern` (IBM-Metaprogramming-for-Python)

A shallow embedding of the interning decorator from `src/metautils/intern.py`.

The decorator patches a class's `__new__` and `__init__`:

* `__new__` derives a key from the constructor parameters — the default key is
  `(args, tuple(sorted(kwargs.items())))`, a custom `key` function may replace
  it — looks the key up in a per-class `WeakValueDictionary` called `memory`,
  returns the cached instance on a hit (setting the `*already-initialized*`
  attribute on it), and on a miss allocates a fresh instance and stores it in
  `memory` under the key before `__init__` runs.
* the wrapped `__init__` skips the original initialization body whenever the
  `*already-initialized*` attribute is set on the instance.
* an optional reset method replaces `memory` with a fresh empty table.

We model Python values, object identity (numeric object ids), the heap, the
intern table with weak-value semantics (a lookup only succeeds while the
referent is still strongly referenced), and the construction protocol as a
state transition function.
-/

namespace Intern

/-- Python parameter values, restricted to the shapes the key machinery cares
about: hashable atoms (`int`, `str`), tuples (hashable when all components
are) and lists (never hashable). A tuple `(a, b, c)` is encoded in
cons-cell style as `vCons a (vCons b (vCons c vNil))`; a list wraps the same
encoding of its elements in `vList`. -/
inductive Value where
  | vInt : Int → Value
  | vStr : String → Value
  | vNil : Value
  | vCons : Value → Value → Value
  | vList : Value → Value
  deriving DecidableEq, Repr

/-- Pack a Lean-level list of values as a Python tuple value. -/
def tupleOf (xs : List Value) : Value :=
  xs.foldr .vCons .vNil

/-- Whether a value is hashable under Python's default semantics: `int` and
`str` are, a `tuple` is hashable when all of its components are, a `list`
never is. -/
def hashable : Value → Bool
  | .vInt _ => true
  | .vStr _ => true
  | .vNil => true
  | .vCons a b => hashable a && hashable b
  | .vList _ => false

/-- Keyword arguments: a list of (name, value) pairs with the ordering of the
call site (Python `kwargs` dict preserves insertion order). -/
abbrev Kwargs := List (String × Value)

/-- Insert one keyword pair into a name-sorted keyword list, keeping it
sorted by name. -/
def insertKw (p : String × Value) : Kwargs → Kwargs
  | [] => [p]
  | q :: rest => if p.1 ≤ q.1 then p :: q :: rest else q :: insertKw p rest

/-- `sorted(kwargs.items())`: sort the keyword pairs by name. -/
def sortKw : Kwargs → Kwargs
  | [] => []
  | p :: rest => insertKw p (sortKw rest)

/-- Encode a keyword pair as the Python pair `(name, value)`. -/
def encodePair (p : String × Value) : Value :=
  tupleOf [.vStr p.1, p.2]

/-- The default interning key from `__new__`:
`(args, tuple(sorted(kwargs.items())))`. -/
def defaultKey (args : List Value) (kwargs : Kwargs) : Value :=
  tupleOf [tupleOf args, tupleOf ((sortKw kwargs).map encodePair)]

/-- A Python object of an interned class: its instance attributes as set by
the original `__init__` body, the `*already-initialized*` sentinel attribute
(`false` models the attribute being absent), and a count of how many times
the original initialization body has been run on it. -/
structure Obj where
  fields : List (String × Value)
  marker : Bool
  initCount : Nat
  deriving DecidableEq, Repr

instance : Inhabited Obj := ⟨⟨[], false, 0⟩⟩

/-- Errors surfaced by a construction call: Python's `TypeError` when an
unhashable key is hashed by the `memory[element_key]` lookup, or any error
raised by the class's own initialization logic on a miss. -/
inductive PyError where
  | typeError : PyError
  | initError : String → PyError
  deriving DecidableEq, Repr

/-- An interned class, as configured by the decorator: an optional custom key
function (`key` argument, or one produced from `default_key`), the original
initialization logic (returning the instance attributes it assigns, or an
error it raises), and the configured name of the reset method (`None`
disables reset). -/
structure InternClass where
  keyFn : Option (List Value → Kwargs → Value)
  initBody : List Value → Kwargs → Except String (List (String × Value))
  resetMethod : Option String

/-- The key `__new__` computes:
`(args, tuple(sorted(kwargs.items()))) if key is None else key(*args, **kwargs)`. -/
def derive (cfg : InternClass) (args : List Value) (kwargs : Kwargs) : Value :=
  match cfg.keyFn with
  | none => defaultKey args kwargs
  | some f => f args kwargs

/-- The per-class interpreter state. `nextId` is the allocator for object
identities; `heap` maps an object id to the object; `memory` is the physical
content of the `WeakValueDictionary` (newer bindings shadow older ones);
`live` lists the ids that are still strongly referenced by callers (a
`WeakValueDictionary` entry whose referent is reclaimed behaves as absent). -/
structure State where
  nextId : Nat
  heap : Nat → Obj
  memory : List (Value × Nat)
  live : List Nat

/-- The state of a freshly decorated class: empty table, nothing allocated. -/
def initState : State :=
  { nextId := 0, heap := fun _ => default, memory := [], live := [] }

/-- First-match association lookup in the physical table. -/
def lookupMem : List (Value × Nat) → Value → Option Nat
  | [], _ => none
  | (k, o) :: rest, k' => if k' = k then some o else lookupMem rest k'

/-- `WeakValueDictionary` lookup: a physical entry only produces a value
while its referent is still alive; a lapsed entry behaves as a missing key. -/
def wvLookup (st : State) (k : Value) : Option Nat :=
  match lookupMem st.memory k with
  | some o => if o ∈ st.live then some o else none
  | none => none

/-- Point update of the heap. -/
def setObj (h : Nat → Obj) (i : Nat) (o : Obj) : Nat → Obj :=
  fun j => if j = i then o else h j

/-- One construction call `cls(*args, **kwargs)` on the interned class: the
patched `__new__` followed by the wrapped `__init__`.

* `__new__` computes `element_key`; hashing it in `memory[element_key]`
  raises `TypeError` if it is unhashable (neither caught nor preceded by any
  mutation).
* On a hit (entry present with a live referent) `__new__` sets the
  `*already-initialized*` attribute on the cached instance and returns it;
  the wrapped `__init__` then sees the attribute and skips the original body.
* On a miss `__new__` allocates a fresh instance (`object.__new__`), stores
  it in `memory` under the key, and returns it; the wrapped `__init__` finds
  no sentinel attribute and runs the original body once. If that body
  raises, the error propagates; the fresh instance was never returned to a
  caller, so it is reclaimed and its table entry lapses (it is created dead
  here).

Returns the post-state and the outcome (object id of the result, or the
propagated error). -/
def construct (cfg : InternClass) (st : State) (args : List Value) (kwargs : Kwargs) :
    State × Except PyError Nat :=
  let k := derive cfg args kwargs
  if hashable k then
    match wvLookup st k with
    | some o =>
        ({ st with heap := setObj st.heap o { st.heap o with marker := true } }, .ok o)
    | none =>
        let o := st.nextId
        match cfg.initBody args kwargs with
        | .ok fs =>
            ({ nextId := o + 1,
               heap := setObj st.heap o { fields := fs, marker := false, initCount := 1 },
               memory := (k, o) :: st.memory,
               live := o :: st.live }, .ok o)
        | .error msg =>
            ({ nextId := o + 1,
               heap := setObj st.heap o { fields := [], marker := false, initCount := 1 },
               memory := (k, o) :: st.memory,
               live := st.live }, .error (.initError msg))
  else
    (st, .error .typeError)

/-- The reset method body: `memory = WeakValueDictionary()` — the table is
replaced by an empty one; nothing else changes. -/
def resetState (st : State) : State :=
  { st with memory := [] }

/-- Events a client can perform on an interned class: a construction call,
a call of the reset method (a no-op when the class was configured without
one), and the release of the last strong reference to an instance
(whereupon its weak table entry lapses). -/
inductive Event where
  | construct : List Value → Kwargs → Event
  | reset : Event
  | release : Nat → Event
  deriving DecidableEq

/-- Apply one event to the state. -/
def applyEvent (cfg : InternClass) (st : State) : Event → State
  | .construct args kwargs => (construct cfg st args kwargs).1
  | .reset => if cfg.resetMethod.isSome then resetState st else st
  | .release o => { st with live := st.live.erase o }

/-- Run a sequence of events. -/
def runEvents (cfg : InternClass) (st : State) : List Event → State
  | [] => st
  | e :: rest => runEvents cfg (applyEvent cfg st e) rest

/-- Well-formedness of a state, as maintained by the interning machinery:
every id reachable through the table or the live list was allocated, and no
object is filed under two different keys. -/
structure WF (st : State) : Prop where
  memBound : ∀ k o, lookupMem st.memory k = some o → o < st.nextId
  memInj : ∀ k k' o, lookupMem st.memory k = some o →
    lookupMem st.memory k' = some o → k = k'
  liveBound : ∀ o, o ∈ st.live → o < st.nextId

/-- The state produced by a cache hit on object `o`. -/
def hitState (st : State) (o : Nat) : State :=
  { st with heap := setObj st.heap o { st.heap o with marker := true } }

/-- The state produced by a successful cache miss: fresh instance `st.nextId`
initialized with attributes `fs`, registered under `k`, alive. -/
def missOkState (st : State) (k : Value) (fs : List (String × Value)) : State :=
  { nextId := st.nextId + 1,
    heap := setObj st.heap st.nextId { fields := fs, marker := false, initCount := 1 },
    memory := (k, st.nextId) :: st.memory,
    live := st.nextId :: st.live }

/-- The state after a cache miss whose initialization raised: the fresh
instance was registered but is never returned, so it is not alive and its
table entry lapses. -/
def missErrState (st : State) (k : Value) : State :=
  { nextId := st.nextId + 1,
    heap := setObj st.heap st.nextId { fields := [], marker := false, initCount := 1 },
    memory := (k, st.nextId) :: st.memory,
    live := st.live }

instance : IsTotal (String × Value) (fun a b => a.1 ≤ b.1) :=
  ⟨fun a b => le_total a.1 b.1⟩

instance : IsTrans (String × Value) (fun a b => a.1 ≤ b.1) :=
  ⟨fun _ _ _ h h' => le_trans h h'⟩

/-- A concrete interned class used to witness the theorems: default key,
initialization records the parameters in a `params` attribute, reset enabled
under the conventional name. -/
def testClass : InternClass :=
  { keyFn := none,
    initBody := fun args kwargs => .ok [("params", defaultKey args kwargs)],
    resetMethod := some "reset_intern_memory" }

/-- A concrete interned class whose initialization logic always raises. -/
def failingClass : InternClass :=
  { keyFn := none,
    initBody := fun _ _ => .error "boom",
    resetMethod := some "reset_intern_memory" }

/-! ## Basic lemmas about the table and the construction protocol -/

theorem lookupMem_cons (k : Value) (o : Nat) (m : List (Value × Nat)) (k' : Value) :
    lookupMem ((k, o) :: m) k' = if k' = k then some o else lookupMem m k' := rfl

theorem wvLookup_eq_some {st : State} {k : Value} {o : Nat} :
    wvLookup st k = some o ↔ lookupMem st.memory k = some o ∧ o ∈ st.live := by
  constructor
  · intro h
    unfold wvLookup at h
    split at h
    next o' heq =>
      split at h
      next hl =>
        injection h with h
        subst h
        exact ⟨heq, hl⟩
      next hl => cases h
    next heq => cases h
  · rintro ⟨hm, hl⟩
    unfold wvLookup
    simp [hm, hl]

theorem construct_unhashable {cfg : InternClass} {st : State} {args : List Value}
    {kwargs : Kwargs} (h : hashable (derive cfg args kwargs) = false) :
    construct cfg st args kwargs = (st, .error .typeError) := by
  unfold construct
  simp [h]

theorem construct_hit {cfg : InternClass} {st : State} {args : List Value}
    {kwargs : Kwargs} {o : Nat} (hh : hashable (derive cfg args kwargs) = true)
    (hl : wvLookup st (derive cfg args kwargs) = some o) :
    construct cfg st args kwargs = (hitState st o, .ok o) := by
  unfold construct
  simp [hh, hl, hitState]

theorem construct_miss_ok {cfg : InternClass} {st : State} {args : List Value}
    {kwargs : Kwargs} {fs : List (String × Value)}
    (hh : hashable (derive cfg args kwargs) = true)
    (hl : wvLookup st (derive cfg args kwargs) = none)
    (hi : cfg.initBody args kwargs = .ok fs) :
    construct cfg st args kwargs =
      (missOkState st (derive cfg args kwargs) fs, .ok st.nextId) := by
  unfold construct
  simp [hh, hl, hi, missOkState]

theorem construct_miss_err {cfg : InternClass} {st : State} {args : List Value}
    {kwargs : Kwargs} {msg : String}
    (hh : hashable (derive cfg args kwargs) = true)
    (hl : wvLookup st (derive cfg args kwargs) = none)
    (hi : cfg.initBody args kwargs = .error msg) :
    construct cfg st args kwargs =
      (missErrState st (derive cfg args kwargs), .error (.initError msg)) := by
  unfold construct
  simp [hh, hl, hi, missErrState]

theorem construct_fst_hit {cfg : InternClass} {st : State} {args : List Value}
    {kwargs : Kwargs} {o : Nat} (hh : hashable (derive cfg args kwargs) = true)
    (hl : wvLookup st (derive cfg args kwargs) = some o) :
    (construct cfg st args kwargs).1 = hitState st o := by
  rw [construct_hit hh hl]

theorem construct_fst_miss_ok {cfg : InternClass} {st : State} {args : List Value}
    {kwargs : Kwargs} {fs : List (String × Value)}
    (hh : hashable (derive cfg args kwargs) = true)
    (hl : wvLookup st (derive cfg args kwargs) = none)
    (hi : cfg.initBody args kwargs = .ok fs) :
    (construct cfg st args kwargs).1 = missOkState st (derive cfg args kwargs) fs := by
  rw [construct_miss_ok hh hl hi]

theorem construct_fst_miss_err {cfg : InternClass} {st : State} {args : List Value}
    {kwargs : Kwargs} {msg : String}
    (hh : hashable (derive cfg args kwargs) = true)
    (hl : wvLookup st (derive cfg args kwargs) = none)
    (hi : cfg.initBody args kwargs = .error msg) :
    (construct cfg st args kwargs).1 = missErrState st (derive cfg args kwargs) := by
  rw [construct_miss_err hh hl hi]

/-- Inversion for a construction call that returned an instance: the key was
hashable, and the call was either a hit on a cached live instance or a
successful miss producing the fresh instance `st.nextId`. -/
theorem construct_ok_inv {cfg : InternClass} {st st' : State} {args : List Value}
    {kwargs : Kwargs} {a : Nat}
    (h : construct cfg st args kwargs = (st', .ok a)) :
    hashable (derive cfg args kwargs) = true ∧
      ((wvLookup st (derive cfg args kwargs) = some a ∧ st' = hitState st a) ∨
        (wvLookup st (derive cfg args kwargs) = none ∧ a = st.nextId ∧
          ∃ fs, cfg.initBody args kwargs = .ok fs ∧
            st' = missOkState st (derive cfg args kwargs) fs)) := by
  by_cases hh : hashable (derive cfg args kwargs) = true
  · refine ⟨hh, ?_⟩
    cases hl : wvLookup st (derive cfg args kwargs) with
    | some o =>
        rw [construct_hit hh hl] at h
        have h2 : (Except.ok o : Except PyError Nat) = .ok a := congrArg Prod.snd h
        injection h2 with h2
        subst h2
        exact Or.inl ⟨rfl, (congrArg Prod.fst h).symm⟩
    | none =>
        cases hi : cfg.initBody args kwargs with
        | ok fs =>
            rw [construct_miss_ok hh hl hi] at h
            have h2 : (Except.ok st.nextId : Except PyError Nat) = .ok a :=
              congrArg Prod.snd h
            injection h2 with h2
            subst h2
            exact Or.inr ⟨rfl, rfl, fs, rfl, (congrArg Prod.fst h).symm⟩
        | error msg =>
            rw [construct_miss_err hh hl hi] at h
            have h2 := congrArg Prod.snd h
            simp at h2
  · have hf : hashable (derive cfg args kwargs) = false := by simpa using hh
    rw [construct_unhashable hf] at h
    have h2 := congrArg Prod.snd h
    simp at h2

theorem setObj_eq (h : Nat → Obj) (i : Nat) (o : Obj) : setObj h i o i = o := by
  simp [setObj]

theorem setObj_ne (h : Nat → Obj) (i : Nat) (o : Obj) {j : Nat} (hne : j ≠ i) :
    setObj h i o j = h j := by
  simp [setObj, hne]

/-! ## Preservation of well-formedness -/

theorem wf_initState : WF initState := by
  refine ⟨?_, ?_, ?_⟩
  · intro k o h; cases h
  · intro k k' o h h'; cases h
  · intro o h; cases h

theorem wf_hitState {st : State} (hwf : WF st) (o : Nat) : WF (hitState st o) :=
  ⟨hwf.memBound, hwf.memInj, hwf.liveBound⟩

theorem wf_missOkState {st : State} (hwf : WF st) (k : Value)
    (fs : List (String × Value)) : WF (missOkState st k fs) := by
  refine ⟨?_, ?_, ?_⟩
  · intro k' o h
    simp only [missOkState] at h ⊢
    rw [lookupMem_cons] at h
    split at h
    · injection h with h; omega
    · exact Nat.lt_succ_of_lt (hwf.memBound _ _ h)
  · intro k₁ k₂ o h₁ h₂
    simp only [missOkState] at h₁ h₂
    rw [lookupMem_cons] at h₁ h₂
    split at h₁ <;> split at h₂
    next he₁ he₂ => rw [he₁, he₂]
    next he₁ he₂ =>
      injection h₁ with h₁
      exact absurd (h₁ ▸ hwf.memBound _ _ h₂) (Nat.lt_irrefl _)
    next he₁ he₂ =>
      injection h₂ with h₂
      exact absurd (h₂ ▸ hwf.memBound _ _ h₁) (Nat.lt_irrefl _)
    next he₁ he₂ => exact hwf.memInj _ _ _ h₁ h₂
  · intro o h
    simp only [missOkState] at h ⊢
    rcases List.mem_cons.mp h with h | h
    · omega
    · exact Nat.lt_succ_of_lt (hwf.liveBound _ h)

theorem wf_missErrState {st : State} (hwf : WF st) (k : Value) :
    WF (missErrState st k) := by
  refine ⟨?_, ?_, ?_⟩
  · intro k' o h
    simp only [missErrState] at h ⊢
    rw [lookupMem_cons] at h
    split at h
    · injection h with h; omega
    · exact Nat.lt_succ_of_lt (hwf.memBound _ _ h)
  · intro k₁ k₂ o h₁ h₂
    simp only [missErrState] at h₁ h₂
    rw [lookupMem_cons] at h₁ h₂
    split at h₁ <;> split at h₂
    next he₁ he₂ => rw [he₁, he₂]
    next he₁ he₂ =>
      injection h₁ with h₁
      exact absurd (h₁ ▸ hwf.memBound _ _ h₂) (Nat.lt_irrefl _)
    next he₁ he₂ =>
      injection h₂ with h₂
      exact absurd (h₂ ▸ hwf.memBound _ _ h₁) (Nat.lt_irrefl _)
    next he₁ he₂ => exact hwf.memInj _ _ _ h₁ h₂
  · intro o h
    simp only [missErrState] at h ⊢
    exact Nat.lt_succ_of_lt (hwf.liveBound _ h)

theorem wf_construct {cfg : InternClass} {st : State} (hwf : WF st)
    (args : List Value) (kwargs : Kwargs) :
    WF (construct cfg st args kwargs).1 := by
  by_cases hh : hashable (derive cfg args kwargs) = true
  · cases hl : wvLookup st (derive cfg args kwargs) with
    | some o => rw [construct_hit hh hl]; exact wf_hitState hwf o
    | none =>
        cases hi : cfg.initBody args kwargs with
        | ok fs => rw [construct_miss_ok hh hl hi]; exact wf_missOkState hwf _ fs
        | error msg => rw [construct_miss_err hh hl hi]; exact wf_missErrState hwf _
  · rw [construct_unhashable (by simpa using hh)]; exact hwf

theorem wf_resetState {st : State} (hwf : WF st) : WF (resetState st) := by
  refine ⟨?_, ?_, ?_⟩
  · intro k o h; cases h
  · intro k k' o h h'; cases h
  · exact hwf.liveBound

theorem wf_applyEvent {cfg : InternClass} {st : State} (hwf : WF st) (e : Event) :
    WF (applyEvent cfg st e) := by
  cases e with
  | construct args kwargs => exact wf_construct hwf args kwargs
  | reset =>
      by_cases hr : cfg.resetMethod.isSome <;> simp [applyEvent, hr]
      · exact wf_resetState hwf
      · exact hwf
  | release o =>
      refine ⟨hwf.memBound, hwf.memInj, ?_⟩
      intro o' h
      exact hwf.liveBound _ (List.mem_of_mem_erase h)

theorem wf_runEvents {cfg : InternClass} (evs : List Event) :
    ∀ {st : State}, WF st → WF (runEvents cfg st evs) := by
  induction evs with
  | nil => intro st hwf; exact hwf
  | cons e rest ih => intro st hwf; exact ih (wf_applyEvent hwf e)

/-! ## Preservation of objects and table entries across events -/

/-- An already-allocated object keeps its id allocated, its attributes and
its initialization count across any event; the sentinel attribute, once set,
stays set. Events never rewrite the state of an existing instance — a hit
only sets the sentinel, a miss only touches the fresh instance. -/
theorem applyEvent_obj_preserved (cfg : InternClass) (st : State) (e : Event)
    (a : Nat) (ha : a < st.nextId) :
    a < (applyEvent cfg st e).nextId ∧
    ((applyEvent cfg st e).heap a).fields = (st.heap a).fields ∧
    ((applyEvent cfg st e).heap a).initCount = (st.heap a).initCount ∧
    ((st.heap a).marker = true → ((applyEvent cfg st e).heap a).marker = true) := by
  cases e with
  | reset =>
      by_cases hr : cfg.resetMethod.isSome <;>
        simp [applyEvent, resetState, hr, ha]
  | release o => simpa [applyEvent] using ha
  | construct args kwargs =>
      have hrw : applyEvent cfg st (.construct args kwargs) =
        (construct cfg st args kwargs).1 := rfl
      rw [hrw]
      by_cases hh : hashable (derive cfg args kwargs) = true
      · cases hl : wvLookup st (derive cfg args kwargs) with
        | some o =>
            rw [construct_fst_hit hh hl]
            by_cases hao : a = o
            · subst hao
              simp [hitState, setObj_eq, ha]
            · simp [hitState, setObj_ne _ _ _ hao, ha]
        | none =>
            have hane : a ≠ st.nextId := Nat.ne_of_lt ha
            cases hi : cfg.initBody args kwargs with
            | ok fs =>
                rw [construct_fst_miss_ok hh hl hi]
                simp only [missOkState, setObj_ne _ _ _ hane]
                exact ⟨Nat.lt_succ_of_lt ha, trivial, trivial, fun h => h⟩
            | error msg =>
                rw [construct_fst_miss_err hh hl hi]
                simp only [missErrState, setObj_ne _ _ _ hane]
                exact ⟨Nat.lt_succ_of_lt ha, trivial, trivial, fun h => h⟩
      · have hrw2 : (construct cfg st args kwargs).1 = st := by
          rw [construct_unhashable (by simpa using hh)]
        rw [hrw2]
        exact ⟨ha, rfl, rfl, fun h => h⟩

/-- Trace version of `applyEvent_obj_preserved`. -/
theorem runEvents_obj_preserved (cfg : InternClass) (evs : List Event) :
    ∀ (st : State) (a : Nat), a < st.nextId →
      a < (runEvents cfg st evs).nextId ∧
      ((runEvents cfg st evs).heap a).fields = (st.heap a).fields ∧
      ((runEvents cfg st evs).heap a).initCount = (st.heap a).initCount ∧
      ((st.heap a).marker = true → ((runEvents cfg st evs).heap a).marker = true) := by
  induction evs with
  | nil => exact fun st a ha => ⟨ha, rfl, rfl, fun h => h⟩
  | cons e rest ih =>
      intro st a ha
      obtain ⟨h1, h2, h3, h4⟩ := applyEvent_obj_preserved cfg st e a ha
      obtain ⟨g1, g2, g3, g4⟩ := ih (applyEvent cfg st e) a h1
      exact ⟨g1, g2.trans h2, g3.trans h3, fun h => g4 (h4 h)⟩

/-- A live instance stays live across any event other than the release of
its own last strong reference. -/
theorem applyEvent_live_preserved (cfg : InternClass) (st : State) (e : Event)
    (a : Nat) (ha : a ∈ st.live) (hne : e ≠ .release a) :
    a ∈ (applyEvent cfg st e).live := by
  cases e with
  | reset => by_cases hr : cfg.resetMethod.isSome <;> simp [applyEvent, resetState, hr, ha]
  | release o =>
      have hao : a ≠ o := fun h => hne (h ▸ rfl)
      simpa [applyEvent] using (List.mem_erase_of_ne hao).mpr ha
  | construct args kwargs =>
      show a ∈ (construct cfg st args kwargs).1.live
      by_cases hh : hashable (derive cfg args kwargs) = true
      · cases hl : wvLookup st (derive cfg args kwargs) with
        | some o => rw [construct_hit hh hl]; exact ha
        | none =>
            cases hi : cfg.initBody args kwargs with
            | ok fs =>
                rw [construct_miss_ok hh hl hi]
                exact List.mem_cons_of_mem _ ha
            | error msg => rw [construct_miss_err hh hl hi]; exact ha
      · rw [construct_unhashable (by simpa using hh)]; exact ha

/-- Trace version of `applyEvent_live_preserved`. -/
theorem runEvents_live_preserved (cfg : InternClass) (evs : List Event) :
    ∀ (st : State) (a : Nat), a ∈ st.live → Event.release a ∉ evs →
      a ∈ (runEvents cfg st evs).live := by
  induction evs with
  | nil => exact fun st a ha _ => ha
  | cons e rest ih =>
      intro st a ha hnr
      have hne : e ≠ .release a := fun h => hnr (h ▸ List.mem_cons_self _ _)
      exact ih _ a (applyEvent_live_preserved cfg st e a ha hne)
        (fun h => hnr (List.mem_cons_of_mem _ h))

/-- A table entry resolving to a live instance survives any event other than
a reset and the release of that instance: later constructions with the same
key hit it, constructions with other keys shadow nothing, and releases of
other instances do not lapse it. -/
theorem applyEvent_wv_preserved (cfg : InternClass) (st : State) (e : Event)
    (k : Value) (a : Nat) (ha : wvLookup st k = some a) (hnr : e ≠ .reset)
    (hna : e ≠ .release a) :
    wvLookup (applyEvent cfg st e) k = some a := by
  obtain ⟨hm, hl⟩ := wvLookup_eq_some.mp ha
  cases e with
  | reset => exact absurd rfl hnr
  | release o =>
      have hao : a ≠ o := fun h => hna (h ▸ rfl)
      apply wvLookup_eq_some.mpr
      exact ⟨hm, (List.mem_erase_of_ne hao).mpr hl⟩
  | construct args kwargs =>
      show wvLookup (construct cfg st args kwargs).1 k = some a
      by_cases hh : hashable (derive cfg args kwargs) = true
      · cases hc : wvLookup st (derive cfg args kwargs) with
        | some o =>
            rw [construct_hit hh hc]
            apply wvLookup_eq_some.mpr
            exact ⟨hm, hl⟩
        | none =>
            have hkne : k ≠ derive cfg args kwargs := by
              intro h; rw [h, hc] at ha; cases ha
            cases hi : cfg.initBody args kwargs with
            | ok fs =>
                rw [construct_miss_ok hh hc hi]
                apply wvLookup_eq_some.mpr
                refine ⟨?_, List.mem_cons_of_mem _ hl⟩
                rw [missOkState, lookupMem_cons, if_neg hkne]
                exact hm
            | error msg =>
                rw [construct_miss_err hh hc hi]
                apply wvLookup_eq_some.mpr
                refine ⟨?_, hl⟩
                rw [missErrState, lookupMem_cons, if_neg hkne]
                exact hm
      · rw [construct_unhashable (by simpa using hh)]; exact ha

/-- Trace version of `applyEvent_wv_preserved`. -/
theorem runEvents_wv_preserved (cfg : InternClass) (evs : List Event) :
    ∀ (st : State) (k : Value) (a : Nat), wvLookup st k = some a →
      Event.reset ∉ evs → Event.release a ∉ evs →
      wvLookup (runEvents cfg st evs) k = some a := by
  induction evs with
  | nil => exact fun st k a ha _ _ => ha
  | cons e rest ih =>
      intro st k a ha hnr hna
      have h1 : e ≠ .reset := fun h => hnr (h ▸ List.mem_cons_self _ _)
      have h2 : e ≠ .release a := fun h => hna (h ▸ List.mem_cons_self _ _)
      exact ih _ k a (applyEvent_wv_preserved cfg st e k a ha h1 h2)
        (fun h => hnr (List.mem_cons_of_mem _ h))
        (fun h => hna (List.mem_cons_of_mem _ h))

/-- After a successful construction the key is hashable and resolves, in the
post-state, to the returned instance. -/
theorem construct_ok_wv {cfg : InternClass} {st st1 : State} {args : List Value}
    {kwargs : Kwargs} {a : Nat}
    (h : construct cfg st args kwargs = (st1, .ok a)) :
    hashable (derive cfg args kwargs) = true ∧
      wvLookup st1 (derive cfg args kwargs) = some a := by
  obtain ⟨hh, hcase⟩ := construct_ok_inv h
  refine ⟨hh, ?_⟩
  rcases hcase with ⟨hl, rfl⟩ | ⟨hl, rfl, fs, hi, rfl⟩
  · exact hl
  · apply wvLookup_eq_some.mpr
    constructor
    · simp only [missOkState]
      rw [lookupMem_cons, if_pos rfl]
    · simp only [missOkState]
      exact List.mem_cons_self _ _

/-- Two back-to-back successful constructions whose keys differ return
distinct instances: a hit after a hit is excluded by table injectivity, a
fresh instance has an id no cached instance has. -/
theorem construct_distinct_of_key_ne {cfg : InternClass} {st st1 st2 : State}
    {args1 args2 : List Value} {kwargs1 kwargs2 : Kwargs} {a b : Nat}
    (hwf : WF st)
    (hne : derive cfg args1 kwargs1 ≠ derive cfg args2 kwargs2)
    (h1 : construct cfg st args1 kwargs1 = (st1, .ok a))
    (h2 : construct cfg st1 args2 kwargs2 = (st2, .ok b)) : a ≠ b := by
  obtain ⟨hh1, hcase1⟩ := construct_ok_inv h1
  obtain ⟨hh2, hcase2⟩ := construct_ok_inv h2
  rcases hcase1 with ⟨hl1, rfl⟩ | ⟨hl1, rfl, fs1, hi1, rfl⟩
  · -- first call was a hit on `a`
    have hm1 : lookupMem st.memory (derive cfg args1 kwargs1) = some a :=
      (wvLookup_eq_some.mp hl1).1
    rcases hcase2 with ⟨hl2, _⟩ | ⟨hl2, hb, _⟩
    · have hm2 : lookupMem st.memory (derive cfg args2 kwargs2) = some b :=
        (wvLookup_eq_some.mp hl2).1
      intro hab
      exact hne (hwf.memInj _ _ _ hm1 (hab ▸ hm2))
    · have ha : a < st.nextId := hwf.memBound _ _ hm1
      have hb' : b = st.nextId := hb
      omega
  · -- first call was a miss producing the fresh id `st.nextId`
    rcases hcase2 with ⟨hl2, _⟩ | ⟨hl2, hb, _⟩
    · obtain ⟨hm2, _⟩ := wvLookup_eq_some.mp hl2
      simp only [missOkState] at hm2
      rw [lookupMem_cons, if_neg (Ne.symm hne)] at hm2
      have hb' : b < st.nextId := hwf.memBound _ _ hm2
      omega
    · have hb' : b = (missOkState st (derive cfg args1 kwargs1) fs1).nextId := hb
      simp only [missOkState] at hb'
      omega

/-! ## The default key: structure, ordering and hashability -/

theorem tupleOf_nil : tupleOf [] = .vNil := rfl

theorem tupleOf_cons (x : Value) (xs : List Value) :
    tupleOf (x :: xs) = .vCons x (tupleOf xs) := rfl

theorem tupleOf_inj : ∀ {xs ys : List Value}, tupleOf xs = tupleOf ys → xs = ys := by
  intro xs
  induction xs with
  | nil =>
      intro ys h
      cases ys with
      | nil => rfl
      | cons y ys => rw [tupleOf_nil, tupleOf_cons] at h; cases h
  | cons x xs ih =>
      intro ys h
      cases ys with
      | nil => rw [tupleOf_nil, tupleOf_cons] at h; cases h
      | cons y ys =>
          rw [tupleOf_cons, tupleOf_cons] at h
          injection h with h1 h2
          rw [h1, ih h2]

theorem hashable_tupleOf (xs : List Value) :
    hashable (tupleOf xs) = xs.all hashable := by
  induction xs with
  | nil => rfl
  | cons x xs ih => rw [tupleOf_cons]; simp [hashable, ih]

theorem insertKw_eq_orderedInsert (p : String × Value) (l : Kwargs) :
    insertKw p l = List.orderedInsert (fun a b => a.1 ≤ b.1) p l := by
  induction l with
  | nil => rfl
  | cons q rest ih =>
      unfold insertKw List.orderedInsert
      split

      · rfl
      · rw [ih]

theorem sortKw_eq_insertionSort (l : Kwargs) :
    sortKw l = List.insertionSort (fun a b => a.1 ≤ b.1) l := by
  induction l with
  | nil => rfl
  | cons p rest ih =>
      unfold sortKw List.insertionSort
      rw [ih, insertKw_eq_orderedInsert]

theorem sortKw_perm (l : Kwargs) : List.Perm (sortKw l) l := by
  rw [sortKw_eq_insertionSort]
  exact List.perm_insertionSort _ l

theorem sortKw_sorted (l : Kwargs) :
    List.Sorted (fun a b : String × Value => a.1 ≤ b.1) (sortKw l) := by
  rw [sortKw_eq_insertionSort]
  exact List.sorted_insertionSort _ l

theorem sortKw_length (l : Kwargs) : (sortKw l).length = l.length :=
  (sortKw_perm l).length_eq

/-- Supplying one more named parameter always changes the default key: the
sorted keyword component has a different length. -/
theorem defaultKey_cons_ne (args : List Value) (n : String) (v : Value)
    (kwargs : Kwargs) : defaultKey args ((n, v) :: kwargs) ≠ defaultKey args kwargs := by
  intro h
  simp only [defaultKey, tupleOf_cons, tupleOf_nil] at h
  injection h with h1 h2
  injection h2 with h2 h3
  have hlen := congrArg List.length (tupleOf_inj h2)
  simp only [List.length_map, sortKw_length, List.length_cons] at hlen
  omega

theorem hashable_encodePair (p : String × Value) :
    hashable (encodePair p) = hashable p.2 := by
  simp [encodePair, tupleOf_cons, tupleOf_nil, hashable]

/-- If any positional parameter is unhashable, so is the default key. -/
theorem defaultKey_unhashable_of_arg {args : List Value} {v : Value}
    (kwargs : Kwargs) (hv : v ∈ args) (hu : hashable v = false) :
    hashable (defaultKey args kwargs) = false := by
  simp only [defaultKey, tupleOf_cons, tupleOf_nil, hashable, hashable_tupleOf,
    Bool.and_eq_false_iff]
  left
  rw [List.all_eq_false]
  exact ⟨v, hv, by simp [hu]⟩

/-- If any named parameter's value is unhashable, so is the default key. -/
theorem defaultKey_unhashable_of_kwarg {kwargs : Kwargs} {n : String} {v : Value}
    (args : List Value) (hv : (n, v) ∈ kwargs) (hu : hashable v = false) :
    hashable (defaultKey args kwargs) = false := by
  simp only [defaultKey, tupleOf_cons, tupleOf_nil, hashable, hashable_tupleOf,
    Bool.and_eq_false_iff]
  right
  left
  rw [List.all_eq_false]
  refine ⟨encodePair (n, v), ?_, ?_⟩
  · exact List.mem_map_of_mem _ ((sortKw_perm kwargs).mem_iff.mpr hv)
  · simp [hashable_encodePair, hu]

/-! ## The claims -/

/-- C1: for every interned class (custom key function or the default key)
and every two parameter sets with equal derived keys, once constructing with
the first set has returned an instance, constructing with the second set —
after any further activity that neither resets the table nor releases that
instance (so while it is still alive) — returns the identical instance. -/
theorem intern_identity_on_equal_key (cfg : InternClass) (st st1 : State)
    (args1 args2 : List Value) (kwargs1 kwargs2 : Kwargs) (a : Nat)
    (evs : List Event)
    (hkey : derive cfg args1 kwargs1 = derive cfg args2 kwargs2)
    (h1 : construct cfg st args1 kwargs1 = (st1, .ok a))
    (hnr : Event.reset ∉ evs) (hna : Event.release a ∉ evs) :
    (construct cfg (runEvents cfg st1 evs) args2 kwargs2).2 = .ok a := by
  obtain ⟨hh, hwv⟩ := construct_ok_wv h1
  have hwv2 : wvLookup (runEvents cfg st1 evs) (derive cfg args1 kwargs1) = some a :=
    runEvents_wv_preserved cfg evs st1 _ a hwv hnr hna
  have hh2 : hashable (derive cfg args2 kwargs2) = true := hkey ▸ hh
  have hl2 : wvLookup (runEvents cfg st1 evs) (derive cfg args2 kwargs2) = some a :=
    hkey ▸ hwv2
  rw [construct_hit hh2 hl2]

/-- Witness for C1: constructing `testClass` twice with the same single
positional parameter returns instance `0` both times. -/
theorem intern_identity_on_equal_key_witness :
    (construct testClass
        (runEvents testClass (construct testClass initState [.vInt 1] []).1 [])
        [.vInt 1] []).2 = .ok 0 :=
  intern_identity_on_equal_key testClass initState
    (construct testClass initState [.vInt 1] []).1 [.vInt 1] [.vInt 1] [] [] 0 []
    rfl rfl (List.not_mem_nil _) (List.not_mem_nil _)

/-- C9: for every interned class and every two parameter sets whose derived
keys differ, two successive successful constructions return distinct
instances (never the same object identity). -/
theorem intern_distinctness_on_unequal_key (cfg : InternClass)
    (st st1 st2 : State) (args1 args2 : List Value) (kwargs1 kwargs2 : Kwargs)
    (a b : Nat) (hwf : WF st)
    (hne : derive cfg args1 kwargs1 ≠ derive cfg args2 kwargs2)
    (h1 : construct cfg st args1 kwargs1 = (st1, .ok a))
    (h2 : construct cfg st1 args2 kwargs2 = (st2, .ok b)) : a ≠ b :=
  construct_distinct_of_key_ne hwf hne h1 h2

/-- Witness for C9: `testClass` constructed with `1` and then with `2`
yields instances `0` and `1`, which are distinct. -/
theorem intern_distinctness_on_unequal_key_witness :
    derive testClass [.vInt 1] [] ≠ derive testClass [.vInt 2] [] ∧ (0 : Nat) ≠ 1 :=
  ⟨by decide,
    intern_distinctness_on_unequal_key testClass initState
      (construct testClass initState [.vInt 1] []).1
      (construct testClass (construct testClass initState [.vInt 1] []).1
        [.vInt 2] []).1
      [.vInt 1] [.vInt 2] [] [] 0 1 wf_initState (by decide) rfl rfl⟩

/-- C2: on the first (miss) construction for a key the original `__init__`
body runs exactly once on the new instance; afterwards no event sequence
ever makes it run again on that instance, and a construction that hits the
cache runs no initialization logic at all (no instance's run count
changes). -/
theorem intern_one_time_initialization (cfg : InternClass) (st st1 : State)
    (args : List Value) (kwargs : Kwargs) (a : Nat)
    (hl : wvLookup st (derive cfg args kwargs) = none)
    (h1 : construct cfg st args kwargs = (st1, .ok a)) :
    (st1.heap a).initCount = 1 ∧
    (∀ evs : List Event, ((runEvents cfg st1 evs).heap a).initCount = 1) ∧
    (∀ (st' st'' : State) (args' : List Value) (kwargs' : Kwargs) (b : Nat),
      wvLookup st' (derive cfg args' kwargs') = some b →
      construct cfg st' args' kwargs' = (st'', .ok b) →
      ∀ o, (st''.heap o).initCount = (st'.heap o).initCount) := by
  obtain ⟨hh, hcase⟩ := construct_ok_inv h1
  rcases hcase with ⟨hl', _⟩ | ⟨hl', rfl, fs, hi, rfl⟩
  · rw [hl] at hl'; cases hl'
  · have hcount :
        ((missOkState st (derive cfg args kwargs) fs).heap st.nextId).initCount = 1 := by
      simp only [missOkState]
      rw [setObj_eq]
    refine ⟨hcount, ?_, ?_⟩
    · intro evs
      have ha : st.nextId < (missOkState st (derive cfg args kwargs) fs).nextId := by
        simp only [missOkState]
        omega
      obtain ⟨_, _, h3, _⟩ := runEvents_obj_preserved cfg evs _ st.nextId ha
      rw [h3, hcount]
    · intro st' st'' args' kwargs' b hwv hcon o
      obtain ⟨hh', hcase'⟩ := construct_ok_inv hcon
      rcases hcase' with ⟨hl2, rfl⟩ | ⟨hl2, _, _, _, _⟩
      · by_cases hob : o = b
        · subst hob
          simp [hitState, setObj_eq]
        · simp [hitState, setObj_ne _ _ _ hob]
      · rw [hwv] at hl2; cases hl2

/-- Witness for C2: after the first construction with parameter `2` the
instance's initialization has run exactly once. -/
theorem intern_one_time_initialization_witness :
    (((construct testClass initState [.vInt 2] []).1).heap 0).initCount = 1 :=
  (intern_one_time_initialization testClass initState
    (construct testClass initState [.vInt 2] []).1 [.vInt 2] [] 0 rfl rfl).1

/-- C3: with reset enabled, constructing, calling the reset method and
constructing again with the same parameters yields a different instance; a
further construction with those parameters then returns the post-reset
instance (it is cached under its key). -/
theorem intern_reset_breaks_identity (cfg : InternClass) (st st1 st3 : State)
    (args : List Value) (kwargs : Kwargs) (a b : Nat)
    (hwf : WF st) (hrm : cfg.resetMethod.isSome)
    (h1 : construct cfg st args kwargs = (st1, .ok a))
    (h2 : construct cfg (applyEvent cfg st1 .reset) args kwargs = (st3, .ok b)) :
    a ≠ b ∧ (construct cfg st3 args kwargs).2 = .ok b := by
  have hreset : applyEvent cfg st1 .reset = resetState st1 := by
    simp [applyEvent, hrm]
  rw [hreset] at h2
  obtain ⟨hh, hcase⟩ := construct_ok_inv h1
  have ha : a < st1.nextId := by
    rcases hcase with ⟨hl, rfl⟩ | ⟨hl, rfl, fs, hi, rfl⟩
    · exact hwf.memBound _ _ (wvLookup_eq_some.mp hl).1
    · simp only [missOkState]
      omega
  obtain ⟨hh2, hcase2⟩ := construct_ok_inv h2
  rcases hcase2 with ⟨hl2, _⟩ | ⟨hl2, hb, fs2, hi2, _⟩
  · rw [show wvLookup (resetState st1) (derive cfg args kwargs) = none from rfl] at hl2
    cases hl2
  · constructor
    · have hb' : b = st1.nextId := hb
      omega
    · obtain ⟨_, hwv3⟩ := construct_ok_wv h2
      rw [construct_hit hh2 hwv3]

/-- Witness for C3: constructing `testClass` with `3`, resetting, and
constructing with `3` again gives instances `0` and `1`; one more
construction returns `1` again. -/
theorem intern_reset_breaks_identity_witness :
    (0 : Nat) ≠ 1 ∧
      (construct testClass
        (construct testClass
          (applyEvent testClass (construct testClass initState [.vInt 3] []).1
            .reset) [.vInt 3] []).1 [.vInt 3] []).2 = .ok 1 :=
  intern_reset_breaks_identity testClass initState
    (construct testClass initState [.vInt 3] []).1
    (construct testClass
      (applyEvent testClass (construct testClass initState [.vInt 3] []).1
        .reset) [.vInt 3] []).1
    [.vInt 3] [] 0 1 wf_initState rfl rfl rfl

/-- C4: when the initialization logic raises on a genuine miss, the
construction call surfaces exactly that error, and the observable intern
table is unchanged at every key — in particular there is no entry under the
failed key, so no partially-built instance is reachable through the cache. -/
theorem intern_failed_construction_no_entry (cfg : InternClass) (st : State)
    (args : List Value) (kwargs : Kwargs) (msg : String)
    (hwf : WF st)
    (hh : hashable (derive cfg args kwargs) = true)
    (hl : wvLookup st (derive cfg args kwargs) = none)
    (hi : cfg.initBody args kwargs = .error msg) :
    (construct cfg st args kwargs).2 = .error (.initError msg) ∧
    ∀ k', wvLookup (construct cfg st args kwargs).1 k' = wvLookup st k' := by
  rw [construct_miss_err hh hl hi]
  refine ⟨rfl, ?_⟩
  intro k'
  by_cases hk : k' = derive cfg args kwargs
  · subst hk
    rw [hl]
    unfold wvLookup
    simp only [missErrState]
    rw [lookupMem_cons, if_pos rfl]
    have hdead : st.nextId ∉ st.live := fun h =>
      absurd (hwf.liveBound _ h) (by omega)
    simp [hdead]
  · unfold wvLookup
    simp only [missErrState]
    rw [lookupMem_cons, if_neg hk]

/-- Witness for C4: `failingClass` raises `boom` on its first construction
and leaves the observable table empty at the failed key. -/
theorem intern_failed_construction_no_entry_witness :
    (construct failingClass initState [.vInt 1] []).2 = .error (.initError "boom") ∧
      wvLookup (construct failingClass initState [.vInt 1] []).1
        (defaultKey [.vInt 1] []) = wvLookup initState (defaultKey [.vInt 1] []) :=
  ⟨(intern_failed_construction_no_entry failingClass initState [.vInt 1] []
      "boom" wf_initState rfl rfl rfl).1,
    (intern_failed_construction_no_entry failingClass initState [.vInt 1] []
      "boom" wf_initState rfl rfl rfl).2 _⟩

/-- C7: a construction call that hits the cache does not use its parameters
to mutate the returned instance: the cached instance's attributes and
initialization count are unchanged, and any parameter set deriving the same
key produces exactly the same call result — the arguments matter only
through the key. (The machinery does set the internal
`*already-initialized*` sentinel on the hit instance; the instance's own
attributes are returned as-is.) -/
theorem intern_hit_returns_instance_verbatim (cfg : InternClass)
    (st st1 : State) (args : List Value) (kwargs : Kwargs) (a : Nat)
    (hl : wvLookup st (derive cfg args kwargs) = some a)
    (h1 : construct cfg st args kwargs = (st1, .ok a)) :
    (st1.heap a).fields = (st.heap a).fields ∧
    (st1.heap a).initCount = (st.heap a).initCount ∧
    ∀ (args' : List Value) (kwargs' : Kwargs),
      derive cfg args' kwargs' = derive cfg args kwargs →
      construct cfg st args' kwargs' = (st1, .ok a) := by
  obtain ⟨hh, hcase⟩ := construct_ok_inv h1
  rcases hcase with ⟨_, rfl⟩ | ⟨hl', _, _, _, _⟩
  · refine ⟨?_, ?_, ?_⟩
    · simp [hitState, setObj_eq]
    · simp [hitState, setObj_eq]
    · intro args' kwargs' hk
      have hh' : hashable (derive cfg args' kwargs') = true := by
        rw [hk]; exact hh
      have hl'' : wvLookup st (derive cfg args' kwargs') = some a := by
        rw [hk]; exact hl
      rw [construct_hit hh' hl'']
  · rw [hl] at hl'; cases hl'

/-- Witness for C7: a second construction of `testClass` with parameter `4`
is a hit, and the same call made again produces the identical result. -/
theorem intern_hit_returns_instance_verbatim_witness :
    construct testClass (construct testClass initState [.vInt 4] []).1
        [.vInt 4] [] =
      ((construct testClass (construct testClass initState [.vInt 4] []).1
          [.vInt 4] []).1, .ok 0) :=
  (intern_hit_returns_instance_verbatim testClass
    (construct testClass initState [.vInt 4] []).1
    (construct testClass (construct testClass initState [.vInt 4] []).1
      [.vInt 4] []).1
    [.vInt 4] [] 0 rfl rfl).2.2 [.vInt 4] [] rfl

/-- C5: with no custom key function the derived key is the structural
default — the ordered positional parameters paired with the named
parameters sorted by name (the sorted keyword list is a name-sorted
permutation of the supplied one) — and, consequently, supplying a named
parameter explicitly (even at its default value) gives a key distinct from
omitting it, and the two calls return non-identical instances. -/
theorem intern_default_key_default_vs_explicit (cfg : InternClass)
    (st st1 st2 : State) (args : List Value) (kwargs : Kwargs) (n : String)
    (v : Value) (a b : Nat) (hkf : cfg.keyFn = none) :
    derive cfg args kwargs = defaultKey args kwargs ∧
    List.Sorted (fun p q : String × Value => p.1 ≤ q.1) (sortKw kwargs) ∧
    List.Perm (sortKw kwargs) kwargs ∧
    defaultKey args ((n, v) :: kwargs) ≠ defaultKey args kwargs ∧
    (WF st → construct cfg st args ((n, v) :: kwargs) = (st1, .ok a) →
      construct cfg st1 args kwargs = (st2, .ok b) → a ≠ b) := by
  refine ⟨?_, sortKw_sorted kwargs, sortKw_perm kwargs,
    defaultKey_cons_ne args n v kwargs, ?_⟩
  · simp [derive, hkf]
  · intro hwf h1 h2
    refine construct_distinct_of_key_ne hwf ?_ h1 h2
    simp only [derive, hkf]
    exact defaultKey_cons_ne args n v kwargs

/-- Witness for C5: passing `kt1 = ()` explicitly versus omitting it yields
different default keys and distinct instances (`0` and `1`). -/
theorem intern_default_key_default_vs_explicit_witness :
    defaultKey [.vInt 1] [("kt1", .vNil)] ≠ defaultKey [.vInt 1] [] ∧
      (0 : Nat) ≠ 1 :=
  ⟨(intern_default_key_default_vs_explicit testClass initState
      (construct testClass initState [.vInt 1] [("kt1", .vNil)]).1
      (construct testClass
        (construct testClass initState [.vInt 1] [("kt1", .vNil)]).1
        [.vInt 1] []).1
      [.vInt 1] [] "kt1" .vNil 0 1 rfl).2.2.2.1,
    (intern_default_key_default_vs_explicit testClass initState
      (construct testClass initState [.vInt 1] [("kt1", .vNil)]).1
      (construct testClass
        (construct testClass initState [.vInt 1] [("kt1", .vNil)]).1
        [.vInt 1] []).1
      [.vInt 1] [] "kt1" .vNil 0 1 rfl).2.2.2.2 wf_initState rfl rfl⟩

/-- C6: with no custom key function, a construction call one of whose
parameter values (positional or named) is unhashable fails with a
`TypeError` and leaves the state — in particular the intern table — exactly
as it was; no instance is produced. -/
theorem intern_unhashable_without_key_fails (cfg : InternClass) (st : State)
    (args : List Value) (kwargs : Kwargs) (hkf : cfg.keyFn = none)
    (hu : (∃ v ∈ args, hashable v = false) ∨
      ∃ n v, (n, v) ∈ kwargs ∧ hashable v = false) :
    construct cfg st args kwargs = (st, .error .typeError) := by
  apply construct_unhashable
  simp only [derive, hkf]
  rcases hu with ⟨v, hv, huv⟩ | ⟨n, v, hv, huv⟩
  · exact defaultKey_unhashable_of_arg kwargs hv huv
  · exact defaultKey_unhashable_of_kwarg args hv huv

/-- Witness for C6: constructing `testClass` with a Python `list` argument
raises `TypeError` and leaves the fresh state untouched. -/
theorem intern_unhashable_without_key_fails_witness :
    construct testClass initState [.vList .vNil] [] =
      (initState, .error .typeError) :=
  intern_unhashable_without_key_fails testClass initState [.vList .vNil] []
    rfl (Or.inl ⟨.vList .vNil, List.mem_singleton.mpr rfl, rfl⟩)

/-- C8: with reset enabled, after a (miss) construction, a reset, and a
construction with the same parameters: the new instance is distinct from
the pre-reset one but value-equal to it (same attributes, built by the same
initialization logic on the same parameters), the pre-reset instance is
still alive with its attributes intact, and the new instance is cached
under the key. -/
theorem intern_post_reset_value_equal_not_identical (cfg : InternClass)
    (st st1 st3 : State) (args : List Value) (kwargs : Kwargs) (a b : Nat)
    (hrm : cfg.resetMethod.isSome)
    (hl : wvLookup st (derive cfg args kwargs) = none)
    (h1 : construct cfg st args kwargs = (st1, .ok a))
    (h2 : construct cfg (applyEvent cfg st1 .reset) args kwargs = (st3, .ok b)) :
    a ≠ b ∧
    (st3.heap b).fields = (st3.heap a).fields ∧
    a ∈ st3.live ∧
    (st3.heap a).fields = (st1.heap a).fields ∧
    wvLookup st3 (derive cfg args kwargs) = some b := by
  have hreset : applyEvent cfg st1 .reset = resetState st1 := by
    simp [applyEvent, hrm]
  rw [hreset] at h2
  have hwv3 := (construct_ok_wv h2).2
  obtain ⟨hh, hcase⟩ := construct_ok_inv h1
  rcases hcase with ⟨hl', _⟩ | ⟨hl', rfl, fs, hi, rfl⟩
  · rw [hl] at hl'; cases hl'
  obtain ⟨hh2, hcase2⟩ := construct_ok_inv h2
  rcases hcase2 with ⟨hl2, _⟩ | ⟨hl2, hb, fs2, hi2, rfl⟩
  · rw [show wvLookup (resetState (missOkState st (derive cfg args kwargs) fs))
      (derive cfg args kwargs) = none from rfl] at hl2
    cases hl2
  have hfs : fs2 = fs := by
    rw [hi] at hi2
    injection hi2 with h
    exact h.symm
  have hb' : b = st.nextId + 1 := hb
  subst hb'
  have hne : st.nextId ≠ st.nextId + 1 := by omega
  refine ⟨hne, ?_, ?_, ?_, hwv3⟩
  · simp only [missOkState, resetState]
    rw [setObj_eq, setObj_ne _ _ _ hne, setObj_eq, hfs]
  · simp only [missOkState, resetState]
    exact List.mem_cons_of_mem _ (List.mem_cons_self _ _)
  · simp only [missOkState, resetState]
    rw [setObj_ne _ _ _ hne]

/-- Witness for C8: construct `testClass` with `5`, reset, construct with
`5` again: instances `0` and `1` are distinct, value-equal, `0` is still
alive with its attributes, and `1` is cached. -/
theorem intern_post_reset_value_equal_not_identical_witness :
    (0 : Nat) ≠ 1 ∧
      ((construct testClass
          (applyEvent testClass (construct testClass initState [.vInt 5] []).1
            .reset) [.vInt 5] []).1.heap 1).fields =
        ((construct testClass
          (applyEvent testClass (construct testClass initState [.vInt 5] []).1
            .reset) [.vInt 5] []).1.heap 0).fields ∧
      0 ∈ (construct testClass
          (applyEvent testClass (construct testClass initState [.vInt 5] []).1
            .reset) [.vInt 5] []).1.live ∧
      ((construct testClass
          (applyEvent testClass (construct testClass initState [.vInt 5] []).1
            .reset) [.vInt 5] []).1.heap 0).fields =
        ((construct testClass initState [.vInt 5] []).1.heap 0).fields ∧
      wvLookup (construct testClass
          (applyEvent testClass (construct testClass initState [.vInt 5] []).1
            .reset) [.vInt 5] []).1 (derive testClass [.vInt 5] []) = some 1 :=
  intern_post_reset_value_equal_not_identical testClass initState
    (construct testClass initState [.vInt 5] []).1
    (construct testClass
      (applyEvent testClass (construct testClass initState [.vInt 5] []).1
        .reset) [.vInt 5] []).1
    [.vInt 5] [] 0 1 rfl rfl rfl rfl

/-- C10 (implicit): a construction call that hits the cache sets the
`*already-initialized*` sentinel attribute to `True` on the returned cached
instance, and no later event ever clears it; an instance produced by a miss
that has never been returned from a hit does not carry the attribute. -/
theorem intern_hit_sets_already_initialized (cfg : InternClass)
    (st st1 : State) (args : List Value) (kwargs : Kwargs) (a : Nat)
    (hwf : WF st)
    (h1 : construct cfg st args kwargs = (st1, .ok a)) :
    (wvLookup st (derive cfg args kwargs) = some a →
      (st1.heap a).marker = true ∧
      ∀ evs : List Event, ((runEvents cfg st1 evs).heap a).marker = true) ∧
    (wvLookup st (derive cfg args kwargs) = none →
      (st1.heap a).marker = false) := by
  obtain ⟨hh, hcase⟩ := construct_ok_inv h1
  rcases hcase with ⟨hl, rfl⟩ | ⟨hl, rfl, fs, hi, rfl⟩
  · constructor
    · intro _
      have hmem := (wvLookup_eq_some.mp hl).1
      have ha : a < st.nextId := hwf.memBound _ _ hmem
      have hmark : ((hitState st a).heap a).marker = true := by
        simp [hitState, setObj_eq]
      refine ⟨hmark, ?_⟩
      intro evs
      have ha' : a < (hitState st a).nextId := ha
      exact (runEvents_obj_preserved cfg evs _ a ha').2.2.2 hmark
    · intro hnone
      rw [hl] at hnone
      cases hnone
  · constructor
    · intro hsome
      rw [hl] at hsome
      cases hsome
    · intro _
      simp only [missOkState]
      rw [setObj_eq]

/-- Witness for C10: the second construction with parameter `6` is a hit
and the returned instance `0` carries the sentinel attribute. -/
theorem intern_hit_sets_already_initialized_witness :
    (((construct testClass (construct testClass initState [.vInt 6] []).1
        [.vInt 6] []).1.heap 0).marker) = true :=
  ((intern_hit_sets_already_initialized testClass
    (construct testClass initState [.vInt 6] []).1
    (construct testClass (construct testClass initState [.vInt 6] []).1
      [.vInt 6] []).1
    [.vInt 6] [] 0 (wf_construct wf_initState [.vInt 6] []) rfl).1 rfl).1

end Intern
